import Mathlib

/-!
Verification of the pynsource layout-engine specification against the
repository sources.  The repository ships the GUI shell
(`Research/layout force spring/gui.py`), the overlap-removal test suite
(`tests/test_overlaps1.py`) and the playhead cursor
(`tests/testing-generate-java/python-in/playhead.py`).  The algorithmic
modules the shell imports (`overlap_removal.py`, `graph.py`,
`coordinate_mapper.py`, `layout_spring.py`) are not part of the source
tree, so they are modelled here from the specification text and checked
against the shipped tests where those give concrete expectations.
-/

namespace PynSource

/-- A graph node as described in the data model: an identity string and a
world-space box given by `left`, `top`, `width`, `height`.  World
coordinates are integers (the shipped tests use only integer geometry). -/
structure GraphNode where
  id : String
  left : Int
  top : Int
  width : Int
  height : Int
deriving DecidableEq

/-- Derived right edge of a node box. -/
def GraphNode.right (n : GraphNode) : Int := n.left + n.width

/-- Derived bottom edge of a node box. -/
def GraphNode.bottom (n : GraphNode) : Int := n.top + n.height

/-- Modelled from the spec: `overlap_removal.py` is missing from the source
tree.  Margin-expanded AABB intersection: two boxes are considered
overlapping when the gap between them along both axes is smaller than the
margin `m`. -/
def boxesOverlap (m : Int) (a b : GraphNode) : Bool :=
  (b.left < a.right + m) && (a.left < b.right + m) &&
  (b.top < a.bottom + m) && (a.top < b.bottom + m)

/-- Modelled from the spec: `overlap_removal.py` is missing from the source
tree.  Displace the later node `b` away from the anchor `a` along the axis
requiring less movement (ties toward horizontal), in the direction that
increases separation from the current relative position of the box
centres (ties push right, respectively down). -/
def displace (m : Int) (a b : GraphNode) : GraphNode :=
  let pushRight := 2 * a.left + a.width ≤ 2 * b.left + b.width
  let pushDown := 2 * a.top + a.height ≤ 2 * b.top + b.height
  let dx := if pushRight then a.right + m - b.left else b.right + m - a.left
  let dy := if pushDown then a.bottom + m - b.top else b.bottom + m - a.top
  if dx ≤ dy then
    { b with left := if pushRight then a.right + m else a.left - m - b.width }
  else
    { b with top := if pushDown then a.bottom + m else a.top - m - b.height }

/-- Modelled from the spec: `overlap_removal.py` is missing from the source
tree.  Scan of one anchor node `a` against all later nodes in order; each
overlapping later node is displaced immediately, so the change is visible
to the remaining comparisons of the pass.  Returns the updated suffix and
the number of fix events recorded. -/
def innerScan (m : Int) (a : GraphNode) (l : List GraphNode) : List GraphNode × Nat :=
  (l.map (fun b => if boxesOverlap m a b then displace m a b else b),
   l.countP (fun b => boxesOverlap m a b))

/-- Modelled from the spec: `overlap_removal.py` is missing from the source
tree.  One full scan pass over node pairs in insertion order: for each
node, compare against all later nodes in that order.  Displacements made
earlier in the pass are visible to later comparisons. -/
def outerScanAux (m : Int) : Nat → List GraphNode → List GraphNode × Nat
  | 0, g => (g, 0)
  | _ + 1, [] => ([], 0)
  | fuel + 1, a :: rest =>
      (a :: (outerScanAux m fuel (innerScan m a rest).1).1,
       (innerScan m a rest).2 + (outerScanAux m fuel (innerScan m a rest).1).2)

/-- One full scan pass; `innerScan` preserves the list length, so fuel
equal to the list length always suffices for `outerScanAux` to process
every anchor. -/
def outerScan (m : Int) (g : List GraphNode) : List GraphNode × Nat :=
  outerScanAux m g.length g

/-- Modelled from the spec: `overlap_removal.py` is missing from the source
tree.  Read-only count of pairs (in insertion order) whose margin-expanded
boxes currently intersect, for one anchor against the later nodes. -/
def countInner (m : Int) (a : GraphNode) : List GraphNode → Nat
  | [] => 0
  | b :: rest => (if boxesOverlap m a b then 1 else 0) + countInner m a rest

/-- Modelled from the spec: `overlap_removal.py` is missing from the source
tree.  `CountOverlaps`: read-only count of currently intersecting
margin-expanded box pairs; never mutates state. -/
def countOverlaps (m : Int) : List GraphNode → Nat
  | [] => 0
  | a :: rest => countInner m a rest + countOverlaps m rest

/-- Result of `removeOverlaps`: the convergence flag, the final node list
and the accumulated count of fix events. -/
structure RemovalResult where
  converged : Bool
  nodes : List GraphNode
  fixedCount : Nat
deriving DecidableEq

/-- Modelled from the spec: `overlap_removal.py` is missing from the source
tree.  Fixed-point iteration over bounded passes: re-scan until a full
pass resolves zero overlaps, or the iteration cap (here the remaining
`fuel`) is reached. -/
def removeOverlapsAux (m : Int) : Nat → List GraphNode → Nat → RemovalResult
  | 0, g, acc => ⟨false, g, acc⟩
  | fuel + 1, g, acc =>
      if (outerScan m g).2 = 0 then ⟨true, (outerScan m g).1, acc⟩
      else removeOverlapsAux m fuel (outerScan m g).1 (acc + (outerScan m g).2)

/-- Modelled from the spec: `overlap_removal.py` is missing from the source
tree.  `RemoveOverlaps`: returns the convergence flag, the updated nodes
and the number of individual resolution actions taken. -/
def removeOverlaps (m : Int) (cap : Nat) (g : List GraphNode) : RemovalResult :=
  removeOverlapsAux m cap g 0

/-- Iterating full scan passes, used to state when convergence is reported. -/
def applyPasses (m : Int) : Nat → List GraphNode → List GraphNode
  | 0, g => g
  | k + 1, g => applyPasses m k (outerScan m g).1

/-- Modelled from the spec: `overlap_removal.py` is missing from the source
tree.  Number of scan passes actually executed by `removeOverlaps` before
it returns. -/
def passesUsed (m : Int) : Nat → List GraphNode → Nat
  | 0, _ => 0
  | fuel + 1, g =>
      if (outerScan m g).2 = 0 then 1
      else 1 + passesUsed m fuel (outerScan m g).1

/-- Errors raised by the graph model, as listed in the error handling
design: duplicate insert, unknown edge endpoint, malformed record. -/
inductive GraphError
  | DuplicateIdError (id : String)
  | UnknownNodeError (id : String)
  | ParseError (line : String)
deriving DecidableEq

/-- Modelled from the spec: `graph.py` is missing from the source tree.
A graph is an ordered sequence of nodes (insertion order significant)
plus a set of edges given as `(source id, target id)` pairs. -/
structure Graph where
  nodes : List GraphNode
  edges : List (String × String)
deriving DecidableEq

/-- The node ids of a graph, in insertion order. -/
def Graph.ids (g : Graph) : List String := g.nodes.map GraphNode.id

/-- Modelled from the spec: `graph.py` is missing from the source tree.
`findNodeById` returns the node or a not-found result. -/
def Graph.findNodeById (g : Graph) (i : String) : Option GraphNode :=
  g.nodes.find? (fun n => n.id = i)

/-- Modelled from the spec: `graph.py` is missing from the source tree.
`addNode` appends the node, and fails with `DuplicateIdError` if the id
already exists; the core never auto-renames. -/
def Graph.addNode (g : Graph) (n : GraphNode) : Except GraphError Graph :=
  if g.nodes.any (fun x => x.id = n.id) then
    Except.error (GraphError.DuplicateIdError n.id)
  else
    Except.ok { g with nodes := g.nodes ++ [n] }

/-- Modelled from the spec: `graph.py` is missing from the source tree.
`addEdge` fails with `UnknownNodeError` if either endpoint is absent. -/
def Graph.addEdge (g : Graph) (a b : String) : Except GraphError Graph :=
  if g.nodes.any (fun x => x.id = a) then
    if g.nodes.any (fun x => x.id = b) then
      Except.ok { g with edges := g.edges ++ [(a, b)] }
    else Except.error (GraphError.UnknownNodeError b)
  else Except.error (GraphError.UnknownNodeError a)

/-- Modelled from the spec: the serialization format of `graph.py` is
missing from the source tree.  One line-oriented record: a key/value map
recognizing either the node field set `type=node, id, x, y, width,
height` or the edge field set `type=edge, source, target`. -/
inductive SerialRecord
  | node (id : String) (x y width height : Int)
  | edge (source target : String)
deriving DecidableEq

/-- The serialized record of one node. -/
def nodeRecord (n : GraphNode) : SerialRecord :=
  SerialRecord.node n.id n.left n.top n.width n.height

/-- Modelled from the spec: `GraphToString` of `graph.py` is missing from
the source tree.  `toText` writes one record per node in insertion order
followed by one record per edge. -/
def Graph.toText (g : Graph) : List SerialRecord :=
  g.nodes.map nodeRecord ++ g.edges.map (fun e => SerialRecord.edge e.1 e.2)

/-- Replay one serialized record into the graph being built. -/
def applyRecord (g : Graph) : SerialRecord → Except GraphError Graph
  | SerialRecord.node i x y w h => g.addNode ⟨i, x, y, w, h⟩
  | SerialRecord.edge s t => g.addEdge s t

/-- Modelled from the spec: `LoadGraphFromStrings` of `graph.py` is missing
from the source tree.  `loadFromText` replays the records in order into a
fresh graph, propagating the first error. -/
def loadFromText (rs : List SerialRecord) : Except GraphError Graph :=
  rs.foldlM applyRecord ⟨[], []⟩

/-- Modelled from the spec: `coordinate_mapper.py` is missing from the
source tree.  `toLayoutCoords` for one position: `layoutPos = worldPos /
scale` (floating point modelled as exact rationals). -/
def toLayoutCoords (scale : ℚ) (p : ℚ × ℚ) : ℚ × ℚ :=
  (p.1 / scale, p.2 / scale)

/-- Modelled from the spec: `coordinate_mapper.py` is missing from the
source tree.  `toWorldCoords` is the inverse transform: `worldPos =
layoutPos * scale`. -/
def toWorldCoords (scale : ℚ) (p : ℚ × ℚ) : ℚ × ℚ :=
  (p.1 * scale, p.2 * scale)

/-- Modelled from the spec: `layout_spring.py` is missing from the source
tree.  The spring layout driver loop, abstracted over one simulation
step and over the measurement of total displacement: it stops when the
fixed iteration budget is exhausted or the total displacement of the
last step falls below the convergence threshold, whichever comes first.
Returns the final state and the number of steps performed. -/
def springLoop {σ : Type} (step : σ → σ) (disp : σ → ℚ) (threshold : ℚ) :
    Nat → σ → σ × Nat
  | 0, s => (s, 0)
  | budget + 1, s =>
      if disp (step s) < threshold then (step s, 1)
      else ((springLoop step disp threshold budget (step s)).1,
            (springLoop step disp threshold budget (step s)).2 + 1)

/-! ### The playhead cursor, translated from
`tests/testing-generate-java/python-in/playhead.py` (real source). -/

/-- The observable state of a `Playhead`: the current `Position` and the
largest valid position `MaxPosition` (translated from `playhead.py`). -/
structure Playhead where
  Position : Int
  MaxPosition : Int
deriving DecidableEq

namespace Playhead

/-- `_ClipPositionToMax` of `playhead.py`. -/
def clipPositionToMax (p : Playhead) : Playhead :=
  if p.Position > p.MaxPosition then { p with Position := p.MaxPosition } else p

/-- `_SetMaxItems` of `playhead.py`: `MaxPosition = maxitems - 1`, then
clip the position. -/
def setMaxItems (p : Playhead) (maxitems : Int) : Playhead :=
  clipPositionToMax { p with MaxPosition := maxitems - 1 }

/-- `Clear` of `playhead.py`. -/
def Clear (_p : Playhead) : Playhead :=
  setMaxItems { Position := -1, MaxPosition := -1 } 0

/-- `__init__` of `playhead.py` with argument `maxitems`. -/
def init (maxitems : Int) : Playhead :=
  let p := Clear { Position := -1, MaxPosition := -1 }
  let p := if maxitems > 0 then { p with Position := 0 } else p
  setMaxItems p maxitems

/-- `IsEmpty` of `playhead.py`. -/
def IsEmpty (p : Playhead) : Bool := p.MaxPosition ≤ -1

/-- `GoStart` of `playhead.py`. -/
def GoStart (p : Playhead) : Playhead :=
  clipPositionToMax
    (if p.MaxPosition = -1 then { p with Position := -1 }
     else { p with Position := 0 })

/-- `GoEnd` of `playhead.py`. -/
def GoEnd (p : Playhead) : Playhead := { p with Position := p.MaxPosition }

/-- `Go` of `playhead.py`: clamp the requested position into range. -/
def Go (p : Playhead) (position : Int) : Playhead :=
  let q := if position < 0 then 0 else position
  let q := if q > p.MaxPosition then p.MaxPosition else q
  { p with Position := q }

/-- `GoNext` of `playhead.py`. -/
def GoNext (p : Playhead) : Playhead :=
  if p.Position < p.MaxPosition then { p with Position := p.Position + 1 } else p

/-- `GoPrevious` of `playhead.py`. -/
def GoPrevious (p : Playhead) : Playhead :=
  if p.Position > 0 then { p with Position := p.Position - 1 } else p

/-- The state update of `NotifyOfInsert` of `playhead.py` before the
final was-empty adjustment: extend `MaxPosition` when notified past the
maximum, do nothing when only validating, otherwise shift the position
when the insert happened at or before it and count one more item. -/
def notifyCore (p : Playhead) (position : Int)
    (noinsertJustValidate : Bool) : Playhead :=
  if position > p.MaxPosition then { p with MaxPosition := position }
  else if noinsertJustValidate then p
  else if position ≤ p.Position then
    { p with Position := p.Position + 1, MaxPosition := p.MaxPosition + 1 }
  else { p with MaxPosition := p.MaxPosition + 1 }

/-- `NotifyOfInsert` of `playhead.py`.  A `position` of `-1` returns at
once; a smaller negative value fails the assertion before any state is
mutated, so the observable state is likewise unchanged.  The was-empty
test reads the state before the update, exactly as the Python local
`wasemptyPlayheadSituation` does. -/
def NotifyOfInsert (p : Playhead) (position : Int)
    (noinsertJustValidate : Bool) : Playhead :=
  if position ≤ -1 then p
  else if (p.Position == -1 && p.IsEmpty) &&
      !(p.notifyCore position noinsertJustValidate).IsEmpty then
    (p.notifyCore position noinsertJustValidate).GoStart
  else p.notifyCore position noinsertJustValidate

/-- `NotifyPositionNowValid` of `playhead.py`. -/
def NotifyPositionNowValid (p : Playhead) (position : Int) : Playhead :=
  p.NotifyOfInsert position true

end Playhead

/-- One public operation on a playhead, used to quantify over all
sequences of public calls. -/
inductive PlayheadOp
  | clear
  | go (position : Int)
  | goStart
  | goEnd
  | goNext
  | goPrevious
  | notifyOfInsert (position : Int)
  | notifyPositionNowValid (position : Int)

/-- Apply one public operation. -/
def applyOp (p : Playhead) : PlayheadOp → Playhead
  | PlayheadOp.clear => p.Clear
  | PlayheadOp.go q => p.Go q
  | PlayheadOp.goStart => p.GoStart
  | PlayheadOp.goEnd => p.GoEnd
  | PlayheadOp.goNext => p.GoNext
  | PlayheadOp.goPrevious => p.GoPrevious
  | PlayheadOp.notifyOfInsert q => p.NotifyOfInsert q false
  | PlayheadOp.notifyPositionNowValid q => p.NotifyPositionNowValid q

/-- Run a sequence of public operations from a starting state. -/
def runOps (p : Playhead) (ops : List PlayheadOp) : Playhead :=
  ops.foldl applyOp p

/-- The bounded-index invariant of the playhead. -/
def PlayheadInv (p : Playhead) : Prop :=
  -1 ≤ p.Position ∧ p.Position ≤ p.MaxPosition ∧ -1 ≤ p.MaxPosition

/-! ## Lemmas about the overlap resolver -/

theorem displace_id (m : Int) (a b : GraphNode) : (displace m a b).id = b.id := by
  simp only [displace]
  split <;> split <;> split <;> rfl

theorem innerScan_length (m : Int) (a : GraphNode) (l : List GraphNode) :
    (innerScan m a l).1.length = l.length := by
  simp [innerScan]

theorem innerScan_map_id (m : Int) (a : GraphNode) (l : List GraphNode) :
    (innerScan m a l).1.map GraphNode.id = l.map GraphNode.id := by
  simp only [innerScan, List.map_map]
  apply List.map_congr_left
  intro b _
  by_cases h : boxesOverlap m a b <;> simp [h, displace_id]

theorem outerScanAux_map_id (m : Int) (fuel : Nat) (l : List GraphNode) :
    (outerScanAux m fuel l).1.map GraphNode.id = l.map GraphNode.id := by
  induction fuel generalizing l with
  | zero => rfl
  | succ fuel ih =>
      cases l with
      | nil => rfl
      | cons a rest =>
          rw [outerScanAux]
          simp only [List.map_cons]
          rw [ih, innerScan_map_id]

theorem outerScan_map_id (m : Int) (g : List GraphNode) :
    (outerScan m g).1.map GraphNode.id = g.map GraphNode.id :=
  outerScanAux_map_id m g.length g

theorem removeOverlapsAux_map_id (m : Int) (fuel : Nat) (g : List GraphNode)
    (acc : Nat) :
    (removeOverlapsAux m fuel g acc).nodes.map GraphNode.id =
      g.map GraphNode.id := by
  induction fuel generalizing g acc with
  | zero => simp [removeOverlapsAux]
  | succ fuel ih =>
      rw [removeOverlapsAux]
      by_cases h : (outerScan m g).2 = 0
      · simp [h, outerScan_map_id]
      · simp only [h, if_neg, ite_false]
        rw [ih, outerScan_map_id]

theorem countInner_eq_countP (m : Int) (a : GraphNode) (l : List GraphNode) :
    countInner m a l = l.countP (fun b => boxesOverlap m a b) := by
  induction l with
  | nil => simp [countInner]
  | cons b rest ih => simp [countInner, List.countP_cons, ih]; omega

theorem innerScan_zero_fixes (m : Int) (a : GraphNode) (l : List GraphNode)
    (h : (innerScan m a l).2 = 0) :
    (innerScan m a l).1 = l ∧ countInner m a l = 0 := by
  simp only [innerScan] at h ⊢
  rw [List.countP_eq_zero] at h
  constructor
  · conv_rhs => rw [← List.map_id l]
    apply List.map_congr_left
    intro b hb
    simp [h b hb]
  · rw [countInner_eq_countP, List.countP_eq_zero]
    exact h

theorem outerScanAux_zero_fixes (m : Int) (fuel : Nat) (l : List GraphNode)
    (hlen : l.length ≤ fuel) (h : (outerScanAux m fuel l).2 = 0) :
    (outerScanAux m fuel l).1 = l ∧ countOverlaps m l = 0 := by
  induction fuel generalizing l with
  | zero =>
      have : l = [] := List.length_eq_zero.mp (Nat.le_zero.mp hlen)
      subst this
      exact ⟨rfl, rfl⟩
  | succ fuel ih =>
      cases l with
      | nil => exact ⟨rfl, rfl⟩
      | cons a rest =>
          rw [outerScanAux] at h ⊢
          simp only at h ⊢
          have h1 : (innerScan m a rest).2 = 0 := by omega
          have h2 : (outerScanAux m fuel (innerScan m a rest).1).2 = 0 := by
            omega
          have hinner := innerScan_zero_fixes m a rest h1
          rw [hinner.1] at h2
          have hlen2 : rest.length ≤ fuel := by
            simpa using hlen
          have houter := ih rest hlen2 h2
          rw [hinner.1]
          refine ⟨?_, ?_⟩
          · rw [houter.1]
          · simp [countOverlaps, hinner.2, houter.2]

theorem outerScan_zero_fixes (m : Int) (g : List GraphNode)
    (h : (outerScan m g).2 = 0) :
    (outerScan m g).1 = g ∧ countOverlaps m g = 0 :=
  outerScanAux_zero_fixes m g.length g (Nat.le_refl _) h

theorem removeOverlapsAux_converged_count (m : Int) (fuel : Nat)
    (g : List GraphNode) (acc : Nat)
    (h : (removeOverlapsAux m fuel g acc).converged = true) :
    countOverlaps m (removeOverlapsAux m fuel g acc).nodes = 0 := by
  induction fuel generalizing g acc with
  | zero => simp [removeOverlapsAux] at h
  | succ fuel ih =>
      rw [removeOverlapsAux] at h ⊢
      by_cases hp : (outerScan m g).2 = 0
      · have hz := outerScan_zero_fixes m g hp
        simp [hp, hz.1, hz.2]
      · simp only [hp, ite_false] at h ⊢
        exact ih _ _ h

theorem removeOverlapsAux_converged_iff (m : Int) (fuel : Nat)
    (g : List GraphNode) (acc : Nat) :
    (removeOverlapsAux m fuel g acc).converged = true ↔
      ∃ k, k < fuel ∧ (outerScan m (applyPasses m k g)).2 = 0 := by
  induction fuel generalizing g acc with
  | zero => simp [removeOverlapsAux]
  | succ fuel ih =>
      rw [removeOverlapsAux]
      by_cases hp : (outerScan m g).2 = 0
      · simp only [hp, ite_true]
        constructor
        · intro _
          exact ⟨0, Nat.succ_pos fuel, by simpa [applyPasses] using hp⟩
        · intro _
          trivial
      · simp only [hp, ite_false]
        rw [ih]
        constructor
        · rintro ⟨k, hk, hz⟩
          refine ⟨k + 1, by omega, ?_⟩
          simpa [applyPasses] using hz
        · rintro ⟨k, hk, hz⟩
          match k with
          | 0 => simp [applyPasses] at hz; exact absurd hz hp
          | k + 1 =>
              refine ⟨k, by omega, ?_⟩
              simpa [applyPasses] using hz

theorem springLoop_steps_le {σ : Type} (step : σ → σ) (disp : σ → ℚ)
    (threshold : ℚ) (budget : Nat) (s : σ) :
    (springLoop step disp threshold budget s).2 ≤ budget := by
  induction budget generalizing s with
  | zero => simp [springLoop]
  | succ budget ih =>
      rw [springLoop]
      by_cases h : disp (step s) < threshold
      · simp [h]
      · simp only [h, ite_false]
        have := ih (step s)
        omega

theorem springLoop_early_stop {σ : Type} (step : σ → σ) (disp : σ → ℚ)
    (threshold : ℚ) (budget : Nat) (s : σ)
    (h : (springLoop step disp threshold budget s).2 < budget) :
    disp (springLoop step disp threshold budget s).1 < threshold := by
  induction budget generalizing s with
  | zero => simp [springLoop] at h
  | succ budget ih =>
      rw [springLoop] at h ⊢
      by_cases hd : disp (step s) < threshold
      · simp [hd]
      · simp only [hd, ite_false] at h ⊢
        exact ih (step s) (by omega)

theorem passesUsed_le (m : Int) (fuel : Nat) (g : List GraphNode) :
    passesUsed m fuel g ≤ fuel := by
  induction fuel generalizing g with
  | zero => simp [passesUsed]
  | succ fuel ih =>
      rw [passesUsed]
      by_cases h : (outerScan m g).2 = 0
      · simp [h]
      · simp only [h, ite_false]
        have := ih (outerScan m g).1
        omega

/-! ## Claim theorems -/

/-- C1: if `removeOverlaps` reports `converged = true` then immediately
afterwards `countOverlaps` on the resulting nodes is `0` (no pair of
margin-expanded boxes intersects), and `converged = true` holds exactly
when some full scan pass found zero overlaps before the iteration cap
was reached. -/
theorem removeOverlaps_converged_no_overlaps (m : Int) (cap : Nat)
    (g : List GraphNode) :
    ((removeOverlaps m cap g).converged = true →
      countOverlaps m (removeOverlaps m cap g).nodes = 0) ∧
    ((removeOverlaps m cap g).converged = true ↔
      ∃ k, k < cap ∧ (outerScan m (applyPasses m k g)).2 = 0) := by
  constructor
  · exact removeOverlapsAux_converged_count m cap g 0
  · exact removeOverlapsAux_converged_iff m cap g 0

/-- Witness for C1 at a concrete graph of two disjoint boxes. -/
theorem removeOverlaps_converged_no_overlaps_witness :
    countOverlaps 5 (removeOverlaps 5 3
      [⟨"A", 0, 0, 250, 250⟩, ⟨"B", 260, 0, 250, 250⟩]).nodes = 0 :=
  (removeOverlaps_converged_no_overlaps 5 3
    [⟨"A", 0, 0, 250, 250⟩, ⟨"B", 260, 0, 250, 250⟩]).1 (by decide)

/-- C4: `removeOverlaps` is deterministic — two runs from identical
starting state (same margin, same cap, same node list: same ids,
positions and boxes in the same insertion order) produce identical final
node lists and identical fix counts.  The modelled algorithm reads no
state besides its arguments. -/
theorem removeOverlaps_deterministic (m : Int) (cap : Nat)
    (g₁ g₂ : List GraphNode) (h : g₁ = g₂) :
    (removeOverlaps m cap g₁).nodes = (removeOverlaps m cap g₂).nodes ∧
    (removeOverlaps m cap g₁).fixedCount =
      (removeOverlaps m cap g₂).fixedCount := by
  rw [h]
  exact ⟨rfl, rfl⟩

/-- Witness for C4 at a concrete two-node graph. -/
theorem removeOverlaps_deterministic_witness :
    (removeOverlaps 50 10 [⟨"A", 0, 0, 250, 250⟩, ⟨"B", 200, 0, 250, 250⟩]).nodes
      = (removeOverlaps 50 10
          [⟨"A", 0, 0, 250, 250⟩, ⟨"B", 200, 0, 250, 250⟩]).nodes ∧
    (removeOverlaps 50 10
      [⟨"A", 0, 0, 250, 250⟩, ⟨"B", 200, 0, 250, 250⟩]).fixedCount
      = (removeOverlaps 50 10
          [⟨"A", 0, 0, 250, 250⟩, ⟨"B", 200, 0, 250, 250⟩]).fixedCount :=
  removeOverlaps_deterministic 50 10
    [⟨"A", 0, 0, 250, 250⟩, ⟨"B", 200, 0, 250, 250⟩]
    [⟨"A", 0, 0, 250, 250⟩, ⟨"B", 200, 0, 250, 250⟩] rfl

theorem displace_frame (m : Int) (a b : GraphNode) :
    (displace m a b).id = b.id ∧ (displace m a b).width = b.width ∧
    (displace m a b).height = b.height := by
  simp only [displace]
  split <;> split <;> split <;> exact ⟨rfl, rfl, rfl⟩

theorem innerScan_map_frame (m : Int) (a : GraphNode) (l : List GraphNode) :
    (innerScan m a l).1.map (fun n => (n.id, n.width, n.height)) =
      l.map (fun n => (n.id, n.width, n.height)) := by
  simp only [innerScan, List.map_map]
  apply List.map_congr_left
  intro b _
  by_cases h : boxesOverlap m a b
  · simp [h, (displace_frame m a b).1, (displace_frame m a b).2.1,
      (displace_frame m a b).2.2]
  · simp [h]

theorem outerScanAux_map_frame (m : Int) (fuel : Nat) (l : List GraphNode) :
    (outerScanAux m fuel l).1.map (fun n => (n.id, n.width, n.height)) =
      l.map (fun n => (n.id, n.width, n.height)) := by
  induction fuel generalizing l with
  | zero => rfl
  | succ fuel ih =>
      cases l with
      | nil => rfl
      | cons a rest =>
          rw [outerScanAux]
          simp only [List.map_cons]
          rw [ih, innerScan_map_frame]

theorem removeOverlapsAux_map_frame (m : Int) (fuel : Nat)
    (g : List GraphNode) (acc : Nat) :
    (removeOverlapsAux m fuel g acc).nodes.map
        (fun n => (n.id, n.width, n.height)) =
      g.map (fun n => (n.id, n.width, n.height)) := by
  induction fuel generalizing g acc with
  | zero => simp [removeOverlapsAux]
  | succ fuel ih =>
      rw [removeOverlapsAux]
      by_cases h : (outerScan m g).2 = 0
      · simp only [h, ite_true]
        exact outerScanAux_map_frame m g.length g
      · simp only [h, ite_false]
        rw [ih]
        exact outerScanAux_map_frame m g.length g

/-- C7: `removeOverlaps` never deletes or creates nodes: the list of node
ids (hence the node count and the id set) is the same before and after
the call, and only node positions may change — each node keeps its id,
its width and its height. -/
theorem removeOverlaps_preserves_ids (m : Int) (cap : Nat)
    (g : List GraphNode) :
    (removeOverlaps m cap g).nodes.map GraphNode.id = g.map GraphNode.id ∧
    (removeOverlaps m cap g).nodes.map (fun n => (n.id, n.width, n.height)) =
      g.map (fun n => (n.id, n.width, n.height)) :=
  ⟨removeOverlapsAux_map_id m cap g 0, removeOverlapsAux_map_frame m cap g 0⟩

/-- C8: every layout/overlap operation terminates on every input.  The
spring layout loop performs at most its iteration budget of steps, and
when it stops before the budget is exhausted the total displacement of
the last step is below the convergence threshold; the overlap resolver
executes at most its iteration cap of scan passes. -/
theorem layout_operations_terminate {σ : Type} (step : σ → σ)
    (disp : σ → ℚ) (threshold : ℚ) (budget : Nat) (s : σ)
    (m : Int) (cap : Nat) (g : List GraphNode) :
    (springLoop step disp threshold budget s).2 ≤ budget ∧
    ((springLoop step disp threshold budget s).2 < budget →
      disp (springLoop step disp threshold budget s).1 < threshold) ∧
    passesUsed m cap g ≤ cap :=
  ⟨springLoop_steps_le step disp threshold budget s,
   springLoop_early_stop step disp threshold budget s,
   passesUsed_le m cap g⟩

/-- Witness for C8 at concrete data. -/
theorem layout_operations_terminate_witness :
    (springLoop (fun q : ℚ => q) (fun q => q) 1 3 0).2 ≤ 3 ∧
    ((springLoop (fun q : ℚ => q) (fun q => q) 1 3 0).2 < 3 →
      (fun q : ℚ => q) (springLoop (fun q : ℚ => q) (fun q => q) 1 3 0).1 < 1) ∧
    passesUsed 50 4 [⟨"A", 0, 0, 250, 250⟩] ≤ 4 :=
  layout_operations_terminate (fun q : ℚ => q) (fun q => q) 1 3 0 50 4
    [⟨"A", 0, 0, 250, 250⟩]

/-- C3: for a fixed positive scale, mapping a position to layout
coordinates and back to world coordinates returns the original position
(exactly, floats being modelled as rationals). -/
theorem toWorld_toLayout_roundtrip (scale : ℚ) (h : 0 < scale) (p : ℚ × ℚ) :
    toWorldCoords scale (toLayoutCoords scale p) = p := by
  have hne : scale ≠ 0 := ne_of_gt h
  simp [toWorldCoords, toLayoutCoords, div_mul_cancel₀, hne]

/-- Witness for C3 at scale 2 and position (3, 5). -/
theorem toWorld_toLayout_roundtrip_witness :
    0 < (2 : ℚ) ∧ toWorldCoords 2 (toLayoutCoords 2 (3, 5)) = (3, 5) :=
  ⟨by norm_num, toWorld_toLayout_roundtrip 2 (by norm_num) (3, 5)⟩

/-- C9: adding a node whose id already exists in the graph fails with
`DuplicateIdError`; no graph (in particular no graph with a renamed
node) is produced, so the graph held by the caller is left unchanged. -/
theorem addNode_duplicate_error (g : Graph) (n : GraphNode)
    (h : n.id ∈ g.ids) :
    g.addNode n = Except.error (GraphError.DuplicateIdError n.id) := by
  rw [Graph.addNode, if_pos]
  rw [List.any_eq_true]
  simp only [Graph.ids, List.mem_map] at h
  obtain ⟨x, hx, hid⟩ := h
  exact ⟨x, hx, by simp [hid]⟩

/-- Witness for C9: inserting a second node with id "A". -/
theorem addNode_duplicate_error_witness :
    (Graph.mk [⟨"A", 0, 0, 250, 250⟩] []).addNode ⟨"A", 9, 9, 10, 10⟩ =
      Except.error (GraphError.DuplicateIdError "A") :=
  addNode_duplicate_error (Graph.mk [⟨"A", 0, 0, 250, 250⟩] [])
    ⟨"A", 9, 9, 10, 10⟩ (by decide)

/-- The star graph of C5: one hub and four leaves, all leaves placed at
the box of the hub. -/
def starGraph : List GraphNode :=
  [⟨"HUB", 0, 0, 250, 250⟩, ⟨"L1", 0, 0, 250, 250⟩, ⟨"L2", 0, 0, 250, 250⟩,
   ⟨"L3", 0, 0, 250, 250⟩, ⟨"L4", 0, 0, 250, 250⟩]

/-- Counterexample to C5: on the star graph with one hub and four
coincident leaves the modelled resolver converges but records ten fix
events (one per overlapping pair in the first pass), not four. -/
theorem starGraph_not_four_fixes :
    ¬ ((removeOverlaps 50 10 starGraph).converged = true ∧
       (removeOverlaps 50 10 starGraph).fixedCount = 4) := by
  decide

/-- C5 amended: the star graph with one hub and four coincident leaves
resolves with `converged = true` and exactly ten fix events; the leaves
end pushed to the right of the hub in a chain. -/
theorem starGraph_result :
    (removeOverlaps 50 10 starGraph).converged = true ∧
    (removeOverlaps 50 10 starGraph).fixedCount = 10 := by
  decide

/-- C6: for boxes A at (0,0,250,250) and B at (200,0,250,250) the
resolver converges with exactly one fix event, and afterwards the raw
boxes of A and B no longer intersect (B ends at left edge 300, past the
right edge of A). -/
theorem twoNode_overlapping_result :
    (removeOverlaps 50 10
      [⟨"A", 0, 0, 250, 250⟩, ⟨"B", 200, 0, 250, 250⟩]) =
      ⟨true, [⟨"A", 0, 0, 250, 250⟩, ⟨"B", 300, 0, 250, 250⟩], 1⟩ ∧
    boxesOverlap 0 ⟨"A", 0, 0, 250, 250⟩ ⟨"B", 300, 0, 250, 250⟩ = false := by
  decide

/-! ## Lemmas about the serialization round trip -/

theorem foldlM_applyRecord_append (g : Graph) (l1 l2 : List SerialRecord) :
    (l1 ++ l2).foldlM applyRecord g =
      (l1.foldlM applyRecord g) >>= fun g' => l2.foldlM applyRecord g' := by
  induction l1 generalizing g with
  | nil => simp
  | cons r l1 ih =>
      simp only [List.cons_append, List.foldlM_cons]
      cases hr : applyRecord g r with
      | error e => simp [Bind.bind, Except.bind]
      | ok g' => simp [Bind.bind, Except.bind, ih]

theorem loadNodeRecords (ns : List GraphNode) :
    ∀ acc : Graph, (acc.ids ++ ns.map GraphNode.id).Nodup →
      (ns.map nodeRecord).foldlM applyRecord acc =
        Except.ok ⟨acc.nodes ++ ns, acc.edges⟩ := by
  induction ns with
  | nil =>
      intro acc _
      simp only [List.map_nil, List.foldlM_nil, List.append_nil]
      rfl
  | cons n ns ih =>
      intro acc hnd
      have hnotin : n.id ∉ acc.ids := by
        rw [List.nodup_append] at hnd
        intro hmem
        exact hnd.2.2 hmem (by simp)
      have hany : ¬ (acc.nodes.any (fun x => x.id = n.id) = true) := by
        rw [List.any_eq_true]
        rintro ⟨x, hx, hid⟩
        apply hnotin
        simp only [Graph.ids, List.mem_map]
        exact ⟨x, hx, by simpa using hid⟩
      have hstep : applyRecord acc (nodeRecord n) =
          Except.ok ⟨acc.nodes ++ [n], acc.edges⟩ := by
        show acc.addNode n = _
        rw [Graph.addNode, if_neg hany]
      simp only [List.map_cons, List.foldlM_cons, hstep]
      have hnd2 : ((Graph.mk (acc.nodes ++ [n]) acc.edges).ids ++
          ns.map GraphNode.id).Nodup := by
        simp only [Graph.ids, List.map_append, List.map_cons, List.map_nil]
        rw [List.append_assoc]
        simpa using hnd
      have := ih (Graph.mk (acc.nodes ++ [n]) acc.edges) hnd2
      simp only [Bind.bind, Except.bind]
      rw [this]
      simp [List.append_assoc]

theorem loadEdgeRecords (es : List (String × String)) :
    ∀ g : Graph, (∀ e ∈ es, e.1 ∈ g.ids ∧ e.2 ∈ g.ids) →
      (es.map (fun e => SerialRecord.edge e.1 e.2)).foldlM applyRecord g =
        Except.ok ⟨g.nodes, g.edges ++ es⟩ := by
  induction es with
  | nil =>
      intro g _
      simp only [List.map_nil, List.foldlM_nil, List.append_nil]
      rfl
  | cons e es ih =>
      intro g hval
      have hme := hval e (by simp)
      have hany1 : g.nodes.any (fun x => x.id = e.1) = true := by
        rw [List.any_eq_true]
        simp only [Graph.ids, List.mem_map] at hme
        obtain ⟨x, hx, hid⟩ := hme.1
        exact ⟨x, hx, by simp [hid]⟩
      have hany2 : g.nodes.any (fun x => x.id = e.2) = true := by
        rw [List.any_eq_true]
        simp only [Graph.ids, List.mem_map] at hme
        obtain ⟨x, hx, hid⟩ := hme.2
        exact ⟨x, hx, by simp [hid]⟩
      have hstep : applyRecord g (SerialRecord.edge e.1 e.2) =
          Except.ok ⟨g.nodes, g.edges ++ [e]⟩ := by
        show g.addEdge e.1 e.2 = _
        rw [Graph.addEdge, if_pos hany1, if_pos hany2]
      simp only [List.map_cons, List.foldlM_cons, hstep]
      have hval2 : ∀ x ∈ es,
          x.1 ∈ (Graph.mk g.nodes (g.edges ++ [e])).ids ∧
          x.2 ∈ (Graph.mk g.nodes (g.edges ++ [e])).ids := by
        intro x hx
        exact hval x (by simp [hx])
      have := ih (Graph.mk g.nodes (g.edges ++ [e])) hval2
      simp only [Bind.bind, Except.bind]
      rw [this]
      simp [List.append_assoc]

/-- C2: serializing a well-formed graph with `toText` and loading the
result with `loadFromText` into a fresh graph reproduces the graph
exactly: same node ids, same box geometry per id, same edge set (indeed
the very same node list and edge list). -/
theorem toText_loadFromText_roundtrip (g : Graph)
    (hnd : g.ids.Nodup)
    (hed : ∀ e ∈ g.edges, e.1 ∈ g.ids ∧ e.2 ∈ g.ids) :
    loadFromText g.toText = Except.ok g := by
  rw [loadFromText, Graph.toText, foldlM_applyRecord_append]
  have h1 := loadNodeRecords g.nodes (Graph.mk [] [])
    (by simpa [Graph.ids] using hnd)
  rw [h1]
  have h2 := loadEdgeRecords g.edges (Graph.mk g.nodes []) (by
    intro e he
    simpa [Graph.ids] using hed e he)
  simp only [Bind.bind, Except.bind, List.nil_append] at h2 ⊢
  rw [h2]

/-- Witness for C2 at a concrete two-node, one-edge graph. -/
theorem toText_loadFromText_roundtrip_witness :
    loadFromText (Graph.mk
      [⟨"A", 0, 0, 250, 250⟩, ⟨"B", 260, 0, 100, 100⟩] [("A", "B")]).toText =
      Except.ok (Graph.mk
        [⟨"A", 0, 0, 250, 250⟩, ⟨"B", 260, 0, 100, 100⟩] [("A", "B")]) :=
  toText_loadFromText_roundtrip
    (Graph.mk [⟨"A", 0, 0, 250, 250⟩, ⟨"B", 260, 0, 100, 100⟩] [("A", "B")])
    (by decide) (by decide)

/-! ## Lemmas about the playhead -/

theorem inv_GoStart (p : Playhead) (h3 : -1 ≤ p.MaxPosition) :
    PlayheadInv p.GoStart := by
  simp only [Playhead.GoStart, Playhead.clipPositionToMax, PlayheadInv]
  split_ifs <;> simp_all

theorem inv_notifyCore (p : Playhead) (q : Int) (v : Bool)
    (h : PlayheadInv p) : PlayheadInv (p.notifyCore q v) := by
  obtain ⟨h1, h2, h3⟩ := h
  simp only [Playhead.notifyCore, PlayheadInv]
  split_ifs <;> simp_all <;> omega

theorem inv_NotifyOfInsert (p : Playhead) (q : Int) (v : Bool)
    (h : PlayheadInv p) : PlayheadInv (p.NotifyOfInsert q v) := by
  rw [Playhead.NotifyOfInsert]
  split_ifs with hq hw
  · exact h
  · exact inv_GoStart _ (inv_notifyCore p q v h).2.2
  · exact inv_notifyCore p q v h

theorem inv_applyOp (p : Playhead) (op : PlayheadOp) (h : PlayheadInv p) :
    PlayheadInv (applyOp p op) := by
  obtain ⟨h1, h2, h3⟩ := h
  cases op with
  | clear =>
      simp [applyOp, Playhead.Clear, Playhead.setMaxItems,
        Playhead.clipPositionToMax, PlayheadInv]
  | go q =>
      simp only [applyOp, Playhead.Go, PlayheadInv]
      split_ifs <;> simp_all <;> omega
  | goStart => exact inv_GoStart p h3
  | goEnd =>
      simp only [applyOp, Playhead.GoEnd, PlayheadInv]
      exact ⟨by omega, by omega, h3⟩
  | goNext =>
      simp only [applyOp, Playhead.GoNext, PlayheadInv]
      split_ifs <;> simp_all <;> omega
  | goPrevious =>
      simp only [applyOp, Playhead.GoPrevious, PlayheadInv]
      split_ifs <;> simp_all <;> omega
  | notifyOfInsert q => exact inv_NotifyOfInsert p q false ⟨h1, h2, h3⟩
  | notifyPositionNowValid q =>
      exact inv_NotifyOfInsert p q true ⟨h1, h2, h3⟩

theorem inv_init (maxitems : Int) (h : 0 ≤ maxitems) :
    PlayheadInv (Playhead.init maxitems) := by
  simp only [Playhead.init, Playhead.Clear, Playhead.setMaxItems,
    Playhead.clipPositionToMax, PlayheadInv]
  split_ifs <;> simp_all

theorem inv_runOps (ops : List PlayheadOp) :
    ∀ p : Playhead, PlayheadInv p → PlayheadInv (runOps p ops) := by
  induction ops with
  | nil => intro p hp; exact hp
  | cons op ops ih =>
      intro p hp
      exact ih (applyOp p op) (inv_applyOp p op hp)

/-- C10: after construction with any `maxitems ≥ 0` and after every
sequence of public operations, the playhead satisfies
`-1 ≤ Position ≤ MaxPosition`. -/
theorem playhead_position_bounded (maxitems : Int) (h : 0 ≤ maxitems)
    (ops : List PlayheadOp) :
    -1 ≤ (runOps (Playhead.init maxitems) ops).Position ∧
    (runOps (Playhead.init maxitems) ops).Position ≤
      (runOps (Playhead.init maxitems) ops).MaxPosition := by
  have hinv := inv_runOps ops (Playhead.init maxitems) (inv_init maxitems h)
  exact ⟨hinv.1, hinv.2.1⟩

/-- Witness for C10 at `maxitems = 3` and a concrete operation
sequence. -/
theorem playhead_position_bounded_witness :
    -1 ≤ (runOps (Playhead.init 3)
      [PlayheadOp.goNext, PlayheadOp.notifyOfInsert 1, PlayheadOp.goEnd,
       PlayheadOp.goPrevious, PlayheadOp.notifyPositionNowValid 7,
       PlayheadOp.go 99]).Position ∧
    (runOps (Playhead.init 3)
      [PlayheadOp.goNext, PlayheadOp.notifyOfInsert 1, PlayheadOp.goEnd,
       PlayheadOp.goPrevious, PlayheadOp.notifyPositionNowValid 7,
       PlayheadOp.go 99]).Position ≤
    (runOps (Playhead.init 3)
      [PlayheadOp.goNext, PlayheadOp.notifyOfInsert 1, PlayheadOp.goEnd,
       PlayheadOp.goPrevious, PlayheadOp.notifyPositionNowValid 7,
       PlayheadOp.go 99]).MaxPosition :=
  playhead_position_bounded 3 (by norm_num)
    [PlayheadOp.goNext, PlayheadOp.notifyOfInsert 1, PlayheadOp.goEnd,
     PlayheadOp.goPrevious, PlayheadOp.notifyPositionNowValid 7,
     PlayheadOp.go 99]

end PynSource
